import Mathlib

/-!
Shallow embedding of the session-state classifier `readTailMetadata`
(src `conversationParser.ts`) of the vscode-claude-code-conversations
extension, together with proofs of the classifier's specified properties.

The classifier reads the last 16 KiB of a JSONL session log, splits it into
lines, and walks the decoded records newest-first until it finds a definitive
verdict.  We embed the walk over the already-decoded line sequence: each tail
line is an `Option Rec` (`none` when `JSON.parse` rejects the line), listed
newest-first, and a whole missing/unreadable file is `none` at the top level
(`fs.statSync` throwing).  `Date.now()` becomes an explicit `now : Int`
parameter and `new Date(s).getTime()` an explicit parse function
`pd : String → Option Int` (`none` models an invalid date, i.e. `NaN`).
-/

namespace ClaudeConv

/-- One content block as decoded from a JSON line: `{ type, text?, name? }`
(interface `ContentBlock` in `types.ts`). -/
structure ContentBlock where
  type : String
  text : Option String := none
  name : Option String := none
deriving DecidableEq

/-- A message `content` field is either a plain string or a block sequence. -/
inductive Content
  | str (s : String)
  | blocks (bs : List ContentBlock)
deriving DecidableEq

/-- The `message` object of a user/assistant record, restricted to the fields
the classifier reads.  `stop_reason := none` covers both JSON `null` and an
absent field (the code only compares it against string literals).
`output_tokens` is `message.usage.output_tokens` when it is a number. -/
structure Message where
  content : Option Content := none
  model : Option String := none
  stop_reason : Option String := none
  output_tokens : Option Int := none
deriving DecidableEq

/-- The fields of a decoded user record that the classifier reads.
`gitBranch` is present in the JSON lines (and in the spec's `EventRecord`)
but is never read by `readTailMetadata`; it is carried here so that
spec-level statements about it can be expressed. -/
structure UserRec where
  isMeta : Bool := false
  isSidechain : Bool := false
  timestamp : Option String := none
  gitBranch : Option String := none
  message : Option Message := none
deriving DecidableEq

/-- The fields of a decoded assistant record that the classifier reads. -/
structure AsstRec where
  isSidechain : Bool := false
  timestamp : Option String := none
  gitBranch : Option String := none
  message : Option Message := none
deriving DecidableEq

/-- A decoded record, tagged by its `type` field: `"summary"`, `"user"`,
`"assistant"`, or anything else (`other`: file-history-snapshot,
custom-title, queue-operation, unknown tags…). -/
inductive Rec
  | summary
  | user (u : UserRec)
  | assistant (a : AsstRec)
  | other
deriving DecidableEq

/-- The classifier's result (interface `TailMetadata`).  `customTitle` is
part of the TypeScript interface but `readTailMetadata` never sets it, so it
is omitted here. -/
structure TailMetadata where
  isWaiting : Bool
  isToolUseWaiting : Bool
  lastTimestamp : Option String := none
deriving DecidableEq

/-- JavaScript `s.startsWith(p)`, modelled on code points. -/
def jsStartsWith (s p : String) : Bool :=
  p.toList.isPrefixOf s.toList

/-- JavaScript truthiness of an optional string: `undefined` and `""` are
falsy, every other string is truthy. -/
def truthy : Option String → Bool
  | none => false
  | some s => s != ""

/-- Tools that may require user permission (`PERMISSION_TOOLS`). -/
def PERMISSION_TOOLS : List String :=
  ["Bash", "Write", "Edit", "NotebookEdit", "AskUserQuestion", "ExitPlanMode"]

/-- Summed text length `content.reduce((sum, block) => sum + (block.type ===
'text' && block.text ? block.text.length : 0), 0)` when content is an array, `0` otherwise
(plain string or absent).  JS measures UTF-16 units; we use code points,
which agrees on the texts the thresholds are compared against. -/
def textLength : Option Content → Nat
  | some (.blocks bs) =>
      bs.foldl
        (fun sum b =>
          sum + (if b.type == "text" && truthy b.text then (b.text.getD "").length else 0))
        0
  | _ => 0

/-- Test `block.type === "tool_use" && block.name !== undefined`. -/
def isNamedToolUse (b : ContentBlock) : Bool :=
  b.type == "tool_use" && b.name.isSome

/-- Test `Array.isArray(content) && content.some(b => b.type === "tool_use" && b.name !== undefined)`. -/
def hasToolUse : Option Content → Bool
  | some (.blocks bs) => bs.any isNamedToolUse
  | _ => false

/-- First match `content.find(b => b.type === "tool_use" && b.name !== undefined)`,
`none` when content is not an array or no block matches. -/
def findToolUse : Option Content → Option ContentBlock
  | some (.blocks bs) => bs.find? isNamedToolUse
  | _ => none

/-- The value of `ts ? Date.now() - new Date(ts).getTime() : Infinity`:
a finite number of milliseconds, `Infinity` (timestamp absent or the empty
string, both falsy), or `NaN` (present, nonempty, but not parseable). -/
inductive Age
  | fin (ms : Int)
  | inf
  | nan
deriving DecidableEq

/-- Compute the age of a record timestamp. -/
def computeAge (now : Int) (pd : String → Option Int) : Option String → Age
  | none => .inf
  | some s =>
      if s = "" then .inf
      else
        match pd s with
        | some t => .fin (now - t)
        | none => .nan

/-- Comparison `age > 3000` with JS semantics: `Infinity > 3000` is true and
`NaN > 3000` is false. -/
def ageGtGrace : Age → Bool
  | .fin ms => ms > 3000
  | .inf => true
  | .nan => false

/-- Outcome of processing one record inside the backward loop: `ret` models
`return result`, `next` models `continue` carrying the updated
`toolResultSeen` / `textResponseSeen` / `result` state. -/
inductive StepOut
  | ret (res : TailMetadata)
  | next (toolResultSeen textResponseSeen : Bool) (res : TailMetadata)
deriving DecidableEq

/-- Capture `if (!result.lastTimestamp && msg.timestamp) result.lastTimestamp = msg.timestamp`. -/
def captureTs (res : TailMetadata) (ts : Option String) : TailMetadata :=
  if !truthy res.lastTimestamp && truthy ts then { res with lastTimestamp := ts } else res

/-- The user-record branch of the loop body (lines 519–550 of the source):
interrupt check on block-sequence content's first block, then tool-result
detection, then the meta and `"<"`-prefix skips, else a genuine human turn. -/
def stepUser (u : UserRec) (trs txs : Bool) (res : TailMetadata) : StepOut :=
  match u.message.bind (·.content) with
  | some (.blocks bs) =>
      if jsStartsWith ((bs.head?.bind (·.text)).getD "") "[Request interrupted by user" then
        .ret res
      else if bs.any (fun b => b.type == "tool_result") then
        .next true txs res
      else if u.isMeta then
        .next trs txs res
      else
        .ret { res with isWaiting := true }
  | some (.str s) =>
      if u.isMeta then
        .next trs txs res
      else if jsStartsWith s "<" then
        .next trs txs res
      else
        .ret { res with isWaiting := true }
  | none =>
      if u.isMeta then
        .next trs txs res
      else
        .ret { res with isWaiting := true }

/-- The tool-use scan of the assistant branch (lines 596–628): first named
tool-use block wins; unanswered permission tools get the 3000 ms grace
window, everything else terminates the walk. -/
def stepAsstTools (now : Int) (pd : String → Option Int) (a : AsstRec)
    (trs txs : Bool) (res : TailMetadata) : StepOut :=
  match findToolUse (a.message.bind (·.content)) with
  | some b =>
      if !trs then
        if PERMISSION_TOOLS.contains (b.name.getD "") then
          -- result.isToolUseWaiting = age > 3000; result.isWaiting = !result.isToolUseWaiting
          .ret { res with
                   isToolUseWaiting := ageGtGrace (computeAge now pd a.timestamp),
                   isWaiting := !ageGtGrace (computeAge now pd a.timestamp) }
        else
          .ret { res with isWaiting := true }
      else
        if txs then .ret res
        else .ret { res with isWaiting := true }
  | none =>
      .ret { res with isWaiting := true }

/-- The assistant-record branch of the loop body (lines 552–628): terminal
stop reasons, then the streaming-placeholder heuristic on `output_tokens`,
then the tool-use scan. -/
def stepAsst (now : Int) (pd : String → Option Int) (a : AsstRec)
    (trs txs : Bool) (res : TailMetadata) : StepOut :=
  if (a.message.bind (·.stop_reason)) == some "end_turn"
      || (a.message.bind (·.stop_reason)) == some "stop_sequence"
      || (a.message.bind (·.stop_reason)) == some "refusal" then
    .ret res
  else
    match a.message.bind (·.output_tokens) with
    | some n =>
        if n ≤ 1 then
          if 100 < textLength (a.message.bind (·.content))
              && !hasToolUse (a.message.bind (·.content)) then
            .ret res
          else
            .next trs
              (if 0 < textLength (a.message.bind (·.content))
                  && !hasToolUse (a.message.bind (·.content)) && !trs then true else txs)
              res
        else if decide (10 < textLength (a.message.bind (·.content)))
            && decide (20 * n < (textLength (a.message.bind (·.content)) : Int)) then
          -- `outputTokens < textLength / 20` is JS real division on integers
          .ret res
        else
          stepAsstTools now pd a trs txs res
    | none => stepAsstTools now pd a trs txs res

/-- One iteration of the backward loop on a decoded record: summary returns,
non-conversation records, sidechains and synthetic assistant records are
skipped, then the latest timestamp is captured and the role branch runs. -/
def stepRec (now : Int) (pd : String → Option Int) (r : Rec)
    (trs txs : Bool) (res : TailMetadata) : StepOut :=
  match r with
  | .summary => .ret res
  | .other => .next trs txs res
  | .user u =>
      if u.isSidechain then .next trs txs res
      else stepUser u trs txs (captureTs res u.timestamp)
  | .assistant a =>
      if a.isSidechain then .next trs txs res
      else if (a.message.bind (·.model)) == some "<synthetic>" then .next trs txs res
      else stepAsst now pd a trs txs (captureTs res a.timestamp)

/-- The backward walk over the decoded tail lines, newest first.  A `none`
line is one `JSON.parse` rejected (`continue`). -/
def walkRecs (now : Int) (pd : String → Option Int) :
    List (Option Rec) → Bool → Bool → TailMetadata → TailMetadata
  | [], _, _, res => res
  | none :: rest, trs, txs, res => walkRecs now pd rest trs txs res
  | some r :: rest, trs, txs, res =>
      match stepRec now pd r trs txs res with
      | .ret out => out
      | .next trs' txs' res' => walkRecs now pd rest trs' txs' res'

/-- Embedding of `readTailMetadata` over decoded tail lines.  `file = none`
models a missing/unreadable file (`fs.statSync` throws, the catch returns the
default); `some lines` gives each nonblank tail line's decode outcome,
newest first. -/
def readTailMetadata (now : Int) (pd : String → Option Int) :
    Option (List (Option Rec)) → TailMetadata
  | none => { isWaiting := false, isToolUseWaiting := false }
  | some lines =>
      walkRecs now pd lines false false { isWaiting := false, isToolUseWaiting := false }

/-- Does a record survive the walker's filters (spec §4.3 steps 1–4):
a non-sidechain user record, or a non-sidechain non-synthetic assistant
record. -/
def survives : Rec → Bool
  | .summary => false
  | .other => false
  | .user u => !u.isSidechain
  | .assistant a => !a.isSidechain && (a.message.bind (·.model)) != some "<synthetic>"

/-- The `gitBranch` field of a decoded record. -/
def recGitBranch : Rec → Option String
  | .user u => u.gitBranch
  | .assistant a => a.gitBranch
  | _ => none

/-- The `timestamp` field of a decoded record. -/
def recTimestamp : Rec → Option String
  | .user u => u.timestamp
  | .assistant a => a.timestamp
  | _ => none

/-- Modelled from the spec (§4.3 step 5): the spec states the walker captures
`gitBranch` from the first record surviving steps 1–4 and returns it in the
`ClassificationResult`.  This function computes that spec-level value:
`some gb` when a surviving record is reached before any `Summary` record and
`gb` is its `gitBranch` field, `none` when the walk ends or hits a `Summary`
first.  The code's `TailMetadata` has no `gitBranch` field at all. -/
def specGitBranchOfWalk : List (Option Rec) → Option (Option String)
  | [] => none
  | none :: rest => specGitBranchOfWalk rest
  | some .summary :: _ => none
  | some r :: rest =>
      if survives r then some (recGitBranch r) else specGitBranchOfWalk rest

/-- The `lastTimestamp` carried by a step outcome, whether it returned or
continued. -/
def outTs : StepOut → Option String
  | .ret o => o.lastTimestamp
  | .next _ _ o => o.lastTimestamp

/-- Flag discipline of a step outcome: a returned result never has both
flags set, a continued result still has both flags clear. -/
def flagsOk : StepOut → Prop
  | .ret o => ¬(o.isWaiting = true ∧ o.isToolUseWaiting = true)
  | .next _ _ o => o.isWaiting = false ∧ o.isToolUseWaiting = false

theorem captureTs_isWaiting (res : TailMetadata) (ts : Option String) :
    (captureTs res ts).isWaiting = res.isWaiting := by
  unfold captureTs; split <;> rfl

theorem captureTs_isToolUseWaiting (res : TailMetadata) (ts : Option String) :
    (captureTs res ts).isToolUseWaiting = res.isToolUseWaiting := by
  unfold captureTs; split <;> rfl

theorem stepUser_ts (u : UserRec) (trs txs : Bool) (res : TailMetadata) :
    outTs (stepUser u trs txs res) = res.lastTimestamp := by
  unfold stepUser
  repeat' split
  all_goals rfl

theorem stepAsstTools_ts (now : Int) (pd : String → Option Int) (a : AsstRec)
    (trs txs : Bool) (res : TailMetadata) :
    outTs (stepAsstTools now pd a trs txs res) = res.lastTimestamp := by
  unfold stepAsstTools
  repeat' split
  all_goals rfl

theorem stepAsst_ts (now : Int) (pd : String → Option Int) (a : AsstRec)
    (trs txs : Bool) (res : TailMetadata) :
    outTs (stepAsst now pd a trs txs res) = res.lastTimestamp := by
  unfold stepAsst
  repeat' split
  all_goals first | rfl | exact stepAsstTools_ts ..

theorem stepUser_flagsOk (u : UserRec) (trs txs : Bool) (res : TailMetadata)
    (hw : res.isWaiting = false) (hi : res.isToolUseWaiting = false) :
    flagsOk (stepUser u trs txs res) := by
  unfold stepUser
  repeat' split
  all_goals simp [flagsOk, hw, hi]

theorem stepAsstTools_flagsOk (now : Int) (pd : String → Option Int) (a : AsstRec)
    (trs txs : Bool) (res : TailMetadata)
    (hw : res.isWaiting = false) (hi : res.isToolUseWaiting = false) :
    flagsOk (stepAsstTools now pd a trs txs res) := by
  unfold stepAsstTools
  repeat' split
  all_goals simp [flagsOk, hw, hi]

theorem stepAsst_flagsOk (now : Int) (pd : String → Option Int) (a : AsstRec)
    (trs txs : Bool) (res : TailMetadata)
    (hw : res.isWaiting = false) (hi : res.isToolUseWaiting = false) :
    flagsOk (stepAsst now pd a trs txs res) := by
  unfold stepAsst
  repeat' split
  all_goals first
    | exact stepAsstTools_flagsOk now pd a _ _ _ hw hi
    | simp [flagsOk, hw, hi]

theorem stepRec_flagsOk (now : Int) (pd : String → Option Int) (r : Rec)
    (trs txs : Bool) (res : TailMetadata)
    (hw : res.isWaiting = false) (hi : res.isToolUseWaiting = false) :
    flagsOk (stepRec now pd r trs txs res) := by
  cases r with
  | summary => simp [stepRec, flagsOk, hw, hi]
  | other => simp [stepRec, flagsOk, hw, hi]
  | user u =>
      simp only [stepRec]
      split
      · simp [flagsOk, hw, hi]
      · exact stepUser_flagsOk u trs txs _
          (by rw [captureTs_isWaiting]; exact hw)
          (by rw [captureTs_isToolUseWaiting]; exact hi)
  | assistant a =>
      simp only [stepRec]
      split
      · simp [flagsOk, hw, hi]
      · split
        · simp [flagsOk, hw, hi]
        · exact stepAsst_flagsOk now pd a trs txs _
            (by rw [captureTs_isWaiting]; exact hw)
            (by rw [captureTs_isToolUseWaiting]; exact hi)

theorem walkRecs_flagsOk (now : Int) (pd : String → Option Int) :
    ∀ (l : List (Option Rec)) (trs txs : Bool) (res : TailMetadata),
      res.isWaiting = false → res.isToolUseWaiting = false →
      ¬((walkRecs now pd l trs txs res).isWaiting = true ∧
        (walkRecs now pd l trs txs res).isToolUseWaiting = true)
  | [], _, _, res, hw, hi => by simp [walkRecs, hw]
  | none :: rest, trs, txs, res, hw, hi => by
      simpa [walkRecs] using walkRecs_flagsOk now pd rest trs txs res hw hi
  | some r :: rest, trs, txs, res, hw, hi => by
      have hok := stepRec_flagsOk now pd r trs txs res hw hi
      simp only [walkRecs]
      cases hst : stepRec now pd r trs txs res with
      | ret o =>
          rw [hst] at hok
          simpa [flagsOk] using hok
      | next trs' txs' res' =>
          rw [hst] at hok
          simpa using walkRecs_flagsOk now pd rest trs' txs' res' hok.1 hok.2

/-- C1: For every input file (any sequence of tail lines, any timestamps,
any clock value), the ClassificationResult returned by the session-state
classifier (readTailMetadata) never has isWaiting and isToolUseWaiting both
true. -/
theorem c1_flags_never_both_true (now : Int) (pd : String → Option Int)
    (file : Option (List (Option Rec))) :
    ¬((readTailMetadata now pd file).isWaiting = true ∧
      (readTailMetadata now pd file).isToolUseWaiting = true) := by
  cases file with
  | none => simp [readTailMetadata]
  | some lines => exact walkRecs_flagsOk now pd lines false false _ rfl rfl

/-- C7: For every log in which the backward walk reaches a Summary record
before hitting any other terminal case — i.e. from any mid-walk state, whose
flags are still both false — the classifier returns isWaiting = false and
isToolUseWaiting = false immediately, carrying forward only the
lastTimestamp state captured from newer records already visited. -/
theorem c7_summary_terminal (now : Int) (pd : String → Option Int)
    (rest : List (Option Rec)) (trs txs : Bool) (lt : Option String) :
    walkRecs now pd (some .summary :: rest) trs txs
        { isWaiting := false, isToolUseWaiting := false, lastTimestamp := lt } =
      { isWaiting := false, isToolUseWaiting := false, lastTimestamp := lt } :=
  rfl

theorem walkRecs_skip_unparsed (now : Int) (pd : String → Option Int) :
    ∀ (l1 l2 : List (Option Rec)) (trs txs : Bool) (res : TailMetadata),
      walkRecs now pd (l1 ++ none :: l2) trs txs res =
        walkRecs now pd (l1 ++ l2) trs txs res
  | [], l2, trs, txs, res => by simp [walkRecs]
  | none :: l1, l2, trs, txs, res => by
      simpa [walkRecs] using walkRecs_skip_unparsed now pd l1 l2 trs txs res
  | some r :: l1, l2, trs, txs, res => by
      simp only [List.cons_append, walkRecs]
      cases hst : stepRec now pd r trs txs res with
      | ret o => rfl
      | next trs' txs' res' =>
          simpa using walkRecs_skip_unparsed now pd l1 l2 trs' txs' res'

/-- C9: The classifier never raises an error: a missing or empty file yields
the all-false default result (isWaiting = false, isToolUseWaiting = false,
no timestamp), and every line that fails to parse as JSON is skipped
individually without aborting the backward scan — inserting an unparseable
line anywhere leaves the classification unchanged — so every input, however
malformed, yields a well-defined classification (the embedding is a total
function). -/
theorem c9_total_missing_file_default_and_malformed_lines_skipped
    (now : Int) (pd : String → Option Int) :
    readTailMetadata now pd none =
        { isWaiting := false, isToolUseWaiting := false, lastTimestamp := none } ∧
    readTailMetadata now pd (some []) =
        { isWaiting := false, isToolUseWaiting := false, lastTimestamp := none } ∧
    ∀ (l1 l2 : List (Option Rec)),
      readTailMetadata now pd (some (l1 ++ none :: l2)) =
        readTailMetadata now pd (some (l1 ++ l2)) :=
  ⟨rfl, rfl, fun l1 l2 => walkRecs_skip_unparsed now pd l1 l2 false false _⟩

/-- A tail line the walker passes over without touching its state: an
unparseable line, or a record that is neither a Summary nor a survivor of
the filters (an Other record, a sidechain record, a synthetic assistant
record). -/
def transparentLine : Option Rec → Prop
  | none => True
  | some r => r ≠ .summary ∧ survives r = false

theorem stepRec_transparent (now : Int) (pd : String → Option Int) (r : Rec)
    (trs txs : Bool) (res : TailMetadata)
    (h1 : r ≠ .summary) (h2 : survives r = false) :
    stepRec now pd r trs txs res = .next trs txs res := by
  cases r with
  | summary => exact absurd rfl h1
  | other => rfl
  | user u =>
      simp only [survives, Bool.not_eq_false'] at h2
      simp [stepRec, h2]
  | assistant a =>
      by_cases hsc : a.isSidechain
      · simp [stepRec, hsc]
      · have hsyn : ((a.message.bind (·.model)) == some "<synthetic>") = true := by
          simp only [survives, hsc, Bool.not_false, Bool.true_and, bne_eq_false_iff_eq] at h2
          simp [h2]
        simp [stepRec, hsc, hsyn]

theorem walkRecs_transparent_start (now : Int) (pd : String → Option Int) :
    ∀ (l1 : List (Option Rec)), (∀ x ∈ l1, transparentLine x) →
      ∀ (l2 : List (Option Rec)) (trs txs : Bool) (res : TailMetadata),
        walkRecs now pd (l1 ++ l2) trs txs res = walkRecs now pd l2 trs txs res
  | [], _, l2, trs, txs, res => rfl
  | none :: l1, h, l2, trs, txs, res => by
      simp only [List.cons_append, walkRecs]
      exact walkRecs_transparent_start now pd l1 (fun x hx => h x (List.mem_cons_of_mem _ hx))
        l2 trs txs res
  | some r :: l1, h, l2, trs, txs, res => by
      have ht := h (some r) (List.mem_cons_self _ _)
      simp only [List.cons_append, walkRecs,
        stepRec_transparent now pd r trs txs res ht.1 ht.2]
      exact walkRecs_transparent_start now pd l1 (fun x hx => h x (List.mem_cons_of_mem _ hx))
        l2 trs txs res

theorem stepRec_ts_preserved (now : Int) (pd : String → Option Int) (r : Rec)
    (trs txs : Bool) (res : TailMetadata)
    (h : truthy res.lastTimestamp = true) :
    outTs (stepRec now pd r trs txs res) = res.lastTimestamp := by
  have hcap : ∀ ts, captureTs res ts = res := by
    intro ts; unfold captureTs; simp [h]
  cases r with
  | summary => rfl
  | other => rfl
  | user u =>
      simp only [stepRec]
      split
      · rfl
      · rw [hcap]; exact stepUser_ts ..
  | assistant a =>
      simp only [stepRec]
      split
      · rfl
      · split
        · rfl
        · rw [hcap]; exact stepAsst_ts ..

theorem walkRecs_ts_preserved (now : Int) (pd : String → Option Int) :
    ∀ (l : List (Option Rec)) (trs txs : Bool) (res : TailMetadata),
      truthy res.lastTimestamp = true →
      (walkRecs now pd l trs txs res).lastTimestamp = res.lastTimestamp
  | [], _, _, res, _ => rfl
  | none :: rest, trs, txs, res, h => by
      simpa [walkRecs] using walkRecs_ts_preserved now pd rest trs txs res h
  | some r :: rest, trs, txs, res, h => by
      have hts := stepRec_ts_preserved now pd r trs txs res h
      simp only [walkRecs]
      cases hst : stepRec now pd r trs txs res with
      | ret o =>
          rw [hst] at hts
          exact hts
      | next trs' txs' res' =>
          rw [hst] at hts
          simp only [outTs] at hts
          have h' : truthy res'.lastTimestamp = true := by rw [hts]; exact h
          rw [walkRecs_ts_preserved now pd rest trs' txs' res' h', hts]

theorem walkRecs_cons_captured_ts (now : Int) (pd : String → Option Int)
    (r : Rec) (rest : List (Option Rec)) (trs txs : Bool) (res : TailMetadata)
    (s : String) (hne : s ≠ "")
    (hstep : outTs (stepRec now pd r trs txs res) = some s) :
    (walkRecs now pd (some r :: rest) trs txs res).lastTimestamp = some s := by
  simp only [walkRecs]
  cases hst : stepRec now pd r trs txs res with
  | ret o =>
      rw [hst] at hstep
      exact hstep
  | next trs' txs' res' =>
      rw [hst] at hstep
      simp only [outTs] at hstep
      have h' : truthy res'.lastTimestamp = true := by
        rw [hstep]; simpa [truthy] using hne
      rw [walkRecs_ts_preserved now pd rest trs' txs' res' h', hstep]

theorem stepRec_captures_first_ts (now : Int) (pd : String → Option Int)
    (r : Rec) (trs txs : Bool) (res : TailMetadata) (s : String)
    (hs : survives r = true) (hts : recTimestamp r = some s) (hne : s ≠ "")
    (h0 : res.lastTimestamp = none) :
    outTs (stepRec now pd r trs txs res) = some s := by
  have hcap : captureTs res (some s) = { res with lastTimestamp := some s } := by
    unfold captureTs
    simp [truthy, h0, hne]
  cases r with
  | summary => exact absurd hs (by simp [survives])
  | other => exact absurd hs (by simp [survives])
  | user u =>
      have hsc : u.isSidechain = false := by
        simpa [survives, Bool.not_eq_false'] using hs
      have htu : u.timestamp = some s := hts
      simp only [stepRec, hsc, Bool.false_eq_true, if_false, htu, hcap]
      rw [stepUser_ts]
  | assistant a =>
      have hsc : a.isSidechain = false := by
        simp only [survives, Bool.and_eq_true, Bool.not_eq_true'] at hs
        exact hs.1
      have hsyn : ((a.message.bind (·.model)) == some "<synthetic>") = false := by
        simp only [survives, Bool.and_eq_true, Bool.not_eq_true'] at hs
        simpa [bne] using hs.2
      have hta : a.timestamp = some s := hts
      simp only [stepRec, hsc, Bool.false_eq_true, if_false, hsyn, hta, hcap]
      rw [stepAsst_ts]

/-- C2 (counterexample): the classifier's result has no gitBranch component.
Two one-record logs that differ only in the gitBranch of their single
surviving user record produce identical TailMetadata results, while the
spec-level gitBranch of the first surviving record differs — so no field of
the result can be "the gitBranch of the first surviving record". -/
theorem c2_counterexample_result_blind_to_gitBranch :
    readTailMetadata 0 (fun _ => none)
        (some [some (.user { gitBranch := some "main", timestamp := some "T1",
                             message := some { content := some (.str "hello") } })]) =
      readTailMetadata 0 (fun _ => none)
        (some [some (.user { gitBranch := some "dev", timestamp := some "T1",
                             message := some { content := some (.str "hello") } })]) ∧
    specGitBranchOfWalk
        [some (.user { gitBranch := some "main", timestamp := some "T1",
                       message := some { content := some (.str "hello") } })] ≠
      specGitBranchOfWalk
        [some (.user { gitBranch := some "dev", timestamp := some "T1",
                       message := some { content := some (.str "hello") } })] := by
  exact ⟨rfl, by decide⟩

/-- C2 (amended): the classifier's result includes a lastTimestamp field (not
gitBranch — readTailMetadata never reads gitBranch), and for every log whose
backward walk reaches a record surviving the filters (non-Summary, non-Other,
non-sidechain, non-synthetic User or Assistant record) carrying a nonempty
timestamp, the result's lastTimestamp is that first surviving record's
timestamp, captured once before role-specific handling and independent of
whether that record causes a return or a skip. -/
theorem c2_amended_lastTimestamp_captured_from_first_survivor
    (now : Int) (pd : String → Option Int) (l1 : List (Option Rec)) (r : Rec)
    (rest : List (Option Rec)) (s : String)
    (htr : ∀ x ∈ l1, transparentLine x)
    (hs : survives r = true)
    (hts : recTimestamp r = some s)
    (hne : s ≠ "") :
    (readTailMetadata now pd (some (l1 ++ some r :: rest))).lastTimestamp = some s := by
  simp only [readTailMetadata]
  rw [walkRecs_transparent_start now pd l1 htr]
  exact walkRecs_cons_captured_ts now pd r rest false false _ s hne
    (stepRec_captures_first_ts now pd r false false _ s hs hts hne rfl)

/-- C2 witness: the amended capture theorem instantiated on a concrete
one-record log. -/
theorem c2_witness :
    (readTailMetadata 0 (fun _ => none)
        (some ([some .other] ++
          some (.user { timestamp := some "T1",
                        message := some { content := some (.str "hi") } }) ::
            [some .summary]))).lastTimestamp = some "T1" :=
  c2_amended_lastTimestamp_captured_from_first_survivor 0 (fun _ => none)
    [some .other]
    (.user { timestamp := some "T1", message := some { content := some (.str "hi") } })
    [some .summary] "T1"
    (by intro x hx; simp at hx; subst hx; exact ⟨by decide, by decide⟩)
    (by decide) rfl (by decide)

end ClaudeConv

namespace ClaudeConv

/-- Relation between two step outcomes computed at different clock values:
either both return, with the same captured timestamp, or both continue with
exactly the same carry state. -/
def nowIndepRel : StepOut → StepOut → Prop
  | .ret o₁, .ret o₂ => o₁.lastTimestamp = o₂.lastTimestamp
  | .next t₁ x₁ r₁, .next t₂ x₂ r₂ => t₁ = t₂ ∧ x₁ = x₂ ∧ r₁ = r₂
  | _, _ => False

theorem nowIndepRel_refl (s : StepOut) : nowIndepRel s s := by
  cases s <;> simp [nowIndepRel]

theorem stepAsstTools_nowIndep (now₁ now₂ : Int) (pd : String → Option Int)
    (a : AsstRec) (trs txs : Bool) (res : TailMetadata) :
    nowIndepRel (stepAsstTools now₁ pd a trs txs res)
      (stepAsstTools now₂ pd a trs txs res) := by
  unfold stepAsstTools
  repeat' split
  all_goals simp_all [nowIndepRel]

theorem stepAsst_nowIndep (now₁ now₂ : Int) (pd : String → Option Int)
    (a : AsstRec) (trs txs : Bool) (res : TailMetadata) :
    nowIndepRel (stepAsst now₁ pd a trs txs res)
      (stepAsst now₂ pd a trs txs res) := by
  unfold stepAsst
  repeat' split
  all_goals first
    | exact nowIndepRel_refl _
    | exact stepAsstTools_nowIndep ..

theorem stepRec_nowIndep (now₁ now₂ : Int) (pd : String → Option Int)
    (r : Rec) (trs txs : Bool) (res : TailMetadata) :
    nowIndepRel (stepRec now₁ pd r trs txs res) (stepRec now₂ pd r trs txs res) := by
  cases r with
  | summary => exact nowIndepRel_refl _
  | other => exact nowIndepRel_refl _
  | user u =>
      simp only [stepRec]
      split
      · exact nowIndepRel_refl _
      · exact nowIndepRel_refl _
  | assistant a =>
      simp only [stepRec]
      split
      · exact nowIndepRel_refl _
      · split
        · exact nowIndepRel_refl _
        · exact stepAsst_nowIndep ..

theorem walkRecs_ts_nowIndep (now₁ now₂ : Int) (pd : String → Option Int) :
    ∀ (l : List (Option Rec)) (trs txs : Bool) (res : TailMetadata),
      (walkRecs now₁ pd l trs txs res).lastTimestamp =
        (walkRecs now₂ pd l trs txs res).lastTimestamp
  | [], _, _, _ => rfl
  | none :: rest, trs, txs, res => by
      simpa [walkRecs] using walkRecs_ts_nowIndep now₁ now₂ pd rest trs txs res
  | some r :: rest, trs, txs, res => by
      have hrel := stepRec_nowIndep now₁ now₂ pd r trs txs res
      simp only [walkRecs]
      cases h₁ : stepRec now₁ pd r trs txs res with
      | ret o₁ =>
          cases h₂ : stepRec now₂ pd r trs txs res with
          | ret o₂ =>
              rw [h₁, h₂] at hrel
              exact hrel
          | next t₂ x₂ r₂ =>
              rw [h₁, h₂] at hrel
              exact absurd hrel (by simp [nowIndepRel])
      | next t₁ x₁ r₁ =>
          cases h₂ : stepRec now₂ pd r trs txs res with
          | ret o₂ =>
              rw [h₁, h₂] at hrel
              exact absurd hrel (by simp [nowIndepRel])
          | next t₂ x₂ r₂ =>
              rw [h₁, h₂] at hrel
              simp only [nowIndepRel] at hrel
              obtain ⟨ht, hx, hr⟩ := hrel
              subst ht; subst hx; subst hr
              exact walkRecs_ts_nowIndep now₁ now₂ pd rest t₁ x₁ r₁

end ClaudeConv

namespace ClaudeConv

/-- C8 (counterexample): the classifier's verdict on an unchanged file can
change between two invocations, because it reads the current clock.  A
pending Bash tool call stamped at time 0 is "waiting" when classified at
2000 ms (inside the 3000 ms grace window) but "tool-use-waiting" when
classified again at 4000 ms, so two runs on the same file are not always
identical. -/
theorem c8_counterexample_clock_advance_flips_result :
    readTailMetadata 2000 (fun s => if s = "T" then some 0 else none)
        (some [some (.assistant { timestamp := some "T", message := some { content := some (.blocks [{ type := "tool_use", name := some "Bash" }]) } })]) ≠
      readTailMetadata 4000 (fun s => if s = "T" then some 0 else none)
        (some [some (.assistant { timestamp := some "T", message := some { content := some (.blocks [{ type := "tool_use", name := some "Bash" }]) } })]) := by
  decide

/-- C8 (amended): for a fixed file state the classifier is a deterministic
function of the file and the clock: two runs at the same clock value give
identical results, and across different clock values the captured
lastTimestamp is unchanged — only the waiting flags may flip when the
3000 ms permission grace window expires between the runs. -/
theorem c8_amended_deterministic_for_fixed_clock (now₁ now₂ : Int)
    (pd : String → Option Int) (file : Option (List (Option Rec))) :
    (readTailMetadata now₁ pd file).lastTimestamp =
        (readTailMetadata now₂ pd file).lastTimestamp ∧
    (now₁ = now₂ → readTailMetadata now₁ pd file = readTailMetadata now₂ pd file) := by
  constructor
  · cases file with
    | none => rfl
    | some l => exact walkRecs_ts_nowIndep now₁ now₂ pd l false false _
  · intro h; rw [h]

/-- C8 witness: the amended determinism theorem instantiated at concrete
clock values and a concrete file. -/
theorem c8_witness :
    (readTailMetadata 1 (fun _ => none)
        (some [some (.user { timestamp := some "T1", message := some { content := some (.str "hi") } })])).lastTimestamp =
      (readTailMetadata 2 (fun _ => none)
        (some [some (.user { timestamp := some "T1", message := some { content := some (.str "hi") } })])).lastTimestamp ∧
    readTailMetadata 3 (fun _ => none) none = readTailMetadata 3 (fun _ => none) none :=
  ⟨(c8_amended_deterministic_for_fixed_clock 1 2 (fun _ => none)
      (some [some (.user { timestamp := some "T1", message := some { content := some (.str "hi") } })])).1,
   (c8_amended_deterministic_for_fixed_clock 3 3 (fun _ => none) none).2 rfl⟩

theorem stepAsst_falls_to_tools (now : Int) (pd : String → Option Int)
    (a : AsstRec) (trs txs : Bool) (res : TailMetadata)
    (hstop : ((a.message.bind (·.stop_reason)) == some "end_turn"
        || (a.message.bind (·.stop_reason)) == some "stop_sequence"
        || (a.message.bind (·.stop_reason)) == some "refusal") = false)
    (htok : a.message.bind (·.output_tokens) = none ∨
      ∃ n, a.message.bind (·.output_tokens) = some n ∧ 2 ≤ n ∧
        ¬(10 < textLength (a.message.bind (·.content)) ∧
          20 * n < (textLength (a.message.bind (·.content)) : Int))) :
    stepAsst now pd a trs txs res = stepAsstTools now pd a trs txs res := by
  rcases htok with h | ⟨n, h, h2, h3⟩
  · simp [stepAsst, h, hstop]
  · have hn : ¬(n ≤ 1) := by omega
    have hb : (decide (10 < textLength (a.message.bind (·.content)))
        && decide (20 * n < (textLength (a.message.bind (·.content)) : Int))) = false := by
      by_cases h10 : 10 < textLength (a.message.bind (·.content))
      · have h20 : ¬(20 * n < (textLength (a.message.bind (·.content)) : Int)) :=
          fun hc => h3 ⟨h10, hc⟩
        simp [h20]
      · simp [h10]
    simp [stepAsst, h, hstop, hn, hb]

theorem stepAsstTools_permission (now : Int) (pd : String → Option Int)
    (a : AsstRec) (txs : Bool) (res : TailMetadata) (b : ContentBlock) (nm : String)
    (hfind : findToolUse (a.message.bind (·.content)) = some b)
    (hname : b.name = some nm)
    (hperm : PERMISSION_TOOLS.contains nm = true) :
    stepAsstTools now pd a false txs res =
      .ret { res with
               isToolUseWaiting := ageGtGrace (computeAge now pd a.timestamp),
               isWaiting := !ageGtGrace (computeAge now pd a.timestamp) } := by
  have hmem : nm ∈ PERMISSION_TOOLS := by simpa using hperm
  simp [stepAsstTools, hfind, hname, hmem]

theorem stepRec_asst_surviving (now : Int) (pd : String → Option Int)
    (a : AsstRec) (trs txs : Bool) (res : TailMetadata)
    (hsc : a.isSidechain = false)
    (hsyn : (a.message.bind (·.model)) ≠ some "<synthetic>") :
    stepRec now pd (.assistant a) trs txs res =
      stepAsst now pd a trs txs (captureTs res a.timestamp) := by
  have hsynb : ((a.message.bind (·.model)) == some "<synthetic>") = false :=
    beq_eq_false_iff_ne.mpr hsyn
  simp [stepRec, hsc, hsynb]

/-- The whole walk terminating at an unanswered permission-tool call: the
record survives the filters, the stop reason is not terminal, the
placeholder heuristic falls through, the first named tool-use block's name
is a permission tool, and no tool result has been seen. -/
theorem walk_unanswered_permission (now : Int) (pd : String → Option Int)
    (a : AsstRec) (rest : List (Option Rec)) (txs : Bool) (res : TailMetadata)
    (b : ContentBlock) (nm : String)
    (hsc : a.isSidechain = false)
    (hsyn : (a.message.bind (·.model)) ≠ some "<synthetic>")
    (hstop : ((a.message.bind (·.stop_reason)) == some "end_turn"
        || (a.message.bind (·.stop_reason)) == some "stop_sequence"
        || (a.message.bind (·.stop_reason)) == some "refusal") = false)
    (htok : a.message.bind (·.output_tokens) = none ∨
      ∃ n, a.message.bind (·.output_tokens) = some n ∧ 2 ≤ n ∧
        ¬(10 < textLength (a.message.bind (·.content)) ∧
          20 * n < (textLength (a.message.bind (·.content)) : Int)))
    (hfind : findToolUse (a.message.bind (·.content)) = some b)
    (hname : b.name = some nm)
    (hperm : PERMISSION_TOOLS.contains nm = true) :
    walkRecs now pd (some (.assistant a) :: rest) false txs res =
      { captureTs res a.timestamp with
          isToolUseWaiting := ageGtGrace (computeAge now pd a.timestamp),
          isWaiting := !ageGtGrace (computeAge now pd a.timestamp) } := by
  have hstep : stepRec now pd (.assistant a) false txs res =
      .ret { captureTs res a.timestamp with
               isToolUseWaiting := ageGtGrace (computeAge now pd a.timestamp),
               isWaiting := !ageGtGrace (computeAge now pd a.timestamp) } := by
    rw [stepRec_asst_surviving now pd a false txs res hsc hsyn,
      stepAsst_falls_to_tools now pd a false txs _ hstop htok,
      stepAsstTools_permission now pd a txs _ b nm hfind hname hperm]
  simp [walkRecs, hstep]

end ClaudeConv

namespace ClaudeConv

theorem stepAsst_abandoned (now : Int) (pd : String → Option Int) (a : AsstRec)
    (trs txs : Bool) (res : TailMetadata) (n : Int)
    (htok : a.message.bind (·.output_tokens) = some n)
    (hcase : (n ≤ 1 ∧ 100 < textLength (a.message.bind (·.content)) ∧
                hasToolUse (a.message.bind (·.content)) = false) ∨
             (2 ≤ n ∧ 10 < textLength (a.message.bind (·.content)) ∧
                20 * n < (textLength (a.message.bind (·.content)) : Int))) :
    stepAsst now pd a trs txs res = .ret res := by
  rcases hcase with ⟨h1, h2, h3⟩ | ⟨h1, h2, h3⟩
  · by_cases hstop : ((a.message.bind (·.stop_reason)) == some "end_turn"
        || (a.message.bind (·.stop_reason)) == some "stop_sequence"
        || (a.message.bind (·.stop_reason)) == some "refusal") = true
    · simp [stepAsst, hstop]
    · rw [Bool.not_eq_true] at hstop
      simp [stepAsst, hstop, htok, h1, h2, h3]
  · have hn : ¬(n ≤ 1) := by omega
    by_cases hstop : ((a.message.bind (·.stop_reason)) == some "end_turn"
        || (a.message.bind (·.stop_reason)) == some "stop_sequence"
        || (a.message.bind (·.stop_reason)) == some "refusal") = true
    · simp [stepAsst, hstop]
    · rw [Bool.not_eq_true] at hstop
      simp [stepAsst, hstop, htok, hn, h2, h3]

/-- C3: for every assistant record surviving the filters that carries a
numeric outputTokens figure, if outputTokens ≤ 1, the summed length of its
text blocks exceeds 100 (0 for plain-string content) and it has no tool-use
block with a defined name, the walk terminates with isWaiting = false and
isToolUseWaiting = false (abandoned completed response); likewise if
outputTokens ≥ 2, textLength > 10 and outputTokens < textLength / 20
(that is, 20·outputTokens < textLength), the walk terminates with both
flags false. -/
theorem c3_abandoned_response_terminates_not_waiting
    (now : Int) (pd : String → Option Int) (a : AsstRec)
    (rest : List (Option Rec)) (trs txs : Bool) (res : TailMetadata) (n : Int)
    (hsc : a.isSidechain = false)
    (hsyn : (a.message.bind (·.model)) ≠ some "<synthetic>")
    (htok : a.message.bind (·.output_tokens) = some n)
    (hcase : (n ≤ 1 ∧ 100 < textLength (a.message.bind (·.content)) ∧
                hasToolUse (a.message.bind (·.content)) = false) ∨
             (2 ≤ n ∧ 10 < textLength (a.message.bind (·.content)) ∧
                20 * n < (textLength (a.message.bind (·.content)) : Int)))
    (hw : res.isWaiting = false) (hi : res.isToolUseWaiting = false) :
    walkRecs now pd (some (.assistant a) :: rest) trs txs res =
        captureTs res a.timestamp ∧
    (walkRecs now pd (some (.assistant a) :: rest) trs txs res).isWaiting = false ∧
    (walkRecs now pd (some (.assistant a) :: rest) trs txs res).isToolUseWaiting = false := by
  have hstep : stepRec now pd (.assistant a) trs txs res =
      .ret (captureTs res a.timestamp) := by
    rw [stepRec_asst_surviving now pd a trs txs res hsc hsyn,
      stepAsst_abandoned now pd a trs txs _ n htok hcase]
  have hwalk : walkRecs now pd (some (.assistant a) :: rest) trs txs res =
      captureTs res a.timestamp := by
    simp [walkRecs, hstep]
  refine ⟨hwalk, ?_, ?_⟩
  · rw [hwalk, captureTs_isWaiting]; exact hw
  · rw [hwalk, captureTs_isToolUseWaiting]; exact hi

/-- C3 witness: the abandoned-response theorem instantiated on a concrete
assistant record with outputTokens 0 and a 110-character text block. -/
theorem c3_witness :
    (walkRecs 0 (fun _ => none)
        [some (.assistant { message := some { content := some (.blocks [{ type := "text", text := some "0123456789012345678901234567890123456789012345678901234567890123456789012345678901234567890123456789 0123456789" }]), output_tokens := some 0 } })]
        false false { isWaiting := false, isToolUseWaiting := false }).isWaiting = false :=
  (c3_abandoned_response_terminates_not_waiting 0 (fun _ => none)
    { message := some { content := some (.blocks [{ type := "text", text := some "0123456789012345678901234567890123456789012345678901234567890123456789012345678901234567890123456789 0123456789" }]), output_tokens := some 0 } }
    [] false false { isWaiting := false, isToolUseWaiting := false } 0
    rfl (by decide) rfl
    (Or.inl ⟨by decide, by decide, by decide⟩)
    rfl rfl).2.1

/-- C5: for every assistant record reaching the tool-use scan with an
unanswered tool-use block (first named tool-use block, toolResultSeen false)
whose tool name is in the permission set, with age = now − parsed timestamp:
an age of exactly 3000 ms gives isWaiting = true and isToolUseWaiting =
false, an age of 3001 ms or more gives isToolUseWaiting = true and
isWaiting = false (age > 3000 is strict), and a missing timestamp is
treated as infinite age, giving isToolUseWaiting = true. -/
theorem c5_permission_tool_grace_boundary
    (now : Int) (pd : String → Option Int) (a : AsstRec)
    (rest : List (Option Rec)) (txs : Bool) (res : TailMetadata)
    (b : ContentBlock) (nm : String) (s : String) (t : Int)
    (hsc : a.isSidechain = false)
    (hsyn : (a.message.bind (·.model)) ≠ some "<synthetic>")
    (hstop : ((a.message.bind (·.stop_reason)) == some "end_turn"
        || (a.message.bind (·.stop_reason)) == some "stop_sequence"
        || (a.message.bind (·.stop_reason)) == some "refusal") = false)
    (htok : a.message.bind (·.output_tokens) = none ∨
      ∃ m, a.message.bind (·.output_tokens) = some m ∧ 2 ≤ m ∧
        ¬(10 < textLength (a.message.bind (·.content)) ∧
          20 * m < (textLength (a.message.bind (·.content)) : Int)))
    (hfind : findToolUse (a.message.bind (·.content)) = some b)
    (hname : b.name = some nm)
    (hperm : PERMISSION_TOOLS.contains nm = true) :
    (a.timestamp = some s → s ≠ "" → pd s = some t → now - t = 3000 →
       (walkRecs now pd (some (.assistant a) :: rest) false txs res).isWaiting = true ∧
       (walkRecs now pd (some (.assistant a) :: rest) false txs res).isToolUseWaiting = false) ∧
    (a.timestamp = some s → s ≠ "" → pd s = some t → 3000 < now - t →
       (walkRecs now pd (some (.assistant a) :: rest) false txs res).isToolUseWaiting = true ∧
       (walkRecs now pd (some (.assistant a) :: rest) false txs res).isWaiting = false) ∧
    (a.timestamp = none →
       (walkRecs now pd (some (.assistant a) :: rest) false txs res).isToolUseWaiting = true ∧
       (walkRecs now pd (some (.assistant a) :: rest) false txs res).isWaiting = false) := by
  have hwalk := walk_unanswered_permission now pd a rest txs res b nm
    hsc hsyn hstop htok hfind hname hperm
  refine ⟨?_, ?_, ?_⟩
  · intro hts hne hpd hage
    rw [hwalk, hts]
    simp [computeAge, hne, hpd, hage, ageGtGrace]
  · intro hts hne hpd hage
    rw [hwalk, hts]
    simp [computeAge, hne, hpd, hage, ageGtGrace]
  · intro hts
    rw [hwalk, hts]
    simp [computeAge, ageGtGrace]

/-- C5 witness: the grace-boundary theorem instantiated at ages of exactly
3000 ms, 3001 ms, and at a missing timestamp. -/
theorem c5_witness :
    ((walkRecs 3000 (fun s => if s = "T" then some 0 else none)
        [some (.assistant { timestamp := some "T", message := some { content := some (.blocks [{ type := "tool_use", name := some "Bash" }]) } })]
        false false { isWaiting := false, isToolUseWaiting := false }).isWaiting = true ∧
     (walkRecs 3000 (fun s => if s = "T" then some 0 else none)
        [some (.assistant { timestamp := some "T", message := some { content := some (.blocks [{ type := "tool_use", name := some "Bash" }]) } })]
        false false { isWaiting := false, isToolUseWaiting := false }).isToolUseWaiting = false) ∧
    ((walkRecs 3001 (fun s => if s = "T" then some 0 else none)
        [some (.assistant { timestamp := some "T", message := some { content := some (.blocks [{ type := "tool_use", name := some "Bash" }]) } })]
        false false { isWaiting := false, isToolUseWaiting := false }).isToolUseWaiting = true ∧
     (walkRecs 3001 (fun s => if s = "T" then some 0 else none)
        [some (.assistant { timestamp := some "T", message := some { content := some (.blocks [{ type := "tool_use", name := some "Bash" }]) } })]
        false false { isWaiting := false, isToolUseWaiting := false }).isWaiting = false) ∧
    ((walkRecs 0 (fun _ => none)
        [some (.assistant { message := some { content := some (.blocks [{ type := "tool_use", name := some "Bash" }]) } })]
        false false { isWaiting := false, isToolUseWaiting := false }).isToolUseWaiting = true ∧
     (walkRecs 0 (fun _ => none)
        [some (.assistant { message := some { content := some (.blocks [{ type := "tool_use", name := some "Bash" }]) } })]
        false false { isWaiting := false, isToolUseWaiting := false }).isWaiting = false) :=
  ⟨(c5_permission_tool_grace_boundary 3000 (fun s => if s = "T" then some 0 else none)
      { timestamp := some "T", message := some { content := some (.blocks [{ type := "tool_use", name := some "Bash" }]) } }
      [] false { isWaiting := false, isToolUseWaiting := false }
      { type := "tool_use", name := some "Bash" } "Bash" "T" 0
      rfl (by decide) rfl (Or.inl rfl) rfl rfl rfl).1
      rfl (by decide) (by decide) (by decide),
   (c5_permission_tool_grace_boundary 3001 (fun s => if s = "T" then some 0 else none)
      { timestamp := some "T", message := some { content := some (.blocks [{ type := "tool_use", name := some "Bash" }]) } }
      [] false { isWaiting := false, isToolUseWaiting := false }
      { type := "tool_use", name := some "Bash" } "Bash" "T" 0
      rfl (by decide) rfl (Or.inl rfl) rfl rfl rfl).2.1
      rfl (by decide) (by decide) (by decide),
   (c5_permission_tool_grace_boundary 0 (fun _ => none)
      { message := some { content := some (.blocks [{ type := "tool_use", name := some "Bash" }]) } }
      [] false { isWaiting := false, isToolUseWaiting := false }
      { type := "tool_use", name := some "Bash" } "Bash" "x" 0
      rfl (by decide) rfl (Or.inl rfl) rfl rfl rfl).2.2
      rfl⟩

end ClaudeConv

namespace ClaudeConv

/-- C6: for every assistant record reaching the tool-use scan whose content
contains a named tool-use block and for which toolResultSeen is already true
when the walk reaches it: if textResponseSeen is true the walk terminates
with both flags false, otherwise it terminates with isWaiting = true and
isToolUseWaiting = false. -/
theorem c6_answered_tool_use_depends_on_textResponseSeen
    (now : Int) (pd : String → Option Int) (a : AsstRec)
    (rest : List (Option Rec)) (txs : Bool) (res : TailMetadata) (b : ContentBlock)
    (hsc : a.isSidechain = false)
    (hsyn : (a.message.bind (·.model)) ≠ some "<synthetic>")
    (hstop : ((a.message.bind (·.stop_reason)) == some "end_turn"
        || (a.message.bind (·.stop_reason)) == some "stop_sequence"
        || (a.message.bind (·.stop_reason)) == some "refusal") = false)
    (htok : a.message.bind (·.output_tokens) = none ∨
      ∃ m, a.message.bind (·.output_tokens) = some m ∧ 2 ≤ m ∧
        ¬(10 < textLength (a.message.bind (·.content)) ∧
          20 * m < (textLength (a.message.bind (·.content)) : Int)))
    (hfind : findToolUse (a.message.bind (·.content)) = some b)
    (hw : res.isWaiting = false) (hi : res.isToolUseWaiting = false) :
    (txs = true →
       walkRecs now pd (some (.assistant a) :: rest) true txs res =
           captureTs res a.timestamp ∧
       (walkRecs now pd (some (.assistant a) :: rest) true txs res).isWaiting = false ∧
       (walkRecs now pd (some (.assistant a) :: rest) true txs res).isToolUseWaiting = false) ∧
    (txs = false →
       (walkRecs now pd (some (.assistant a) :: rest) true txs res).isWaiting = true ∧
       (walkRecs now pd (some (.assistant a) :: rest) true txs res).isToolUseWaiting = false) := by
  have hstep0 : stepRec now pd (.assistant a) true txs res =
      stepAsstTools now pd a true txs (captureTs res a.timestamp) := by
    rw [stepRec_asst_surviving now pd a true txs res hsc hsyn,
      stepAsst_falls_to_tools now pd a true txs _ hstop htok]
  constructor
  · intro hx
    subst hx
    have hstep : stepRec now pd (.assistant a) true true res =
        .ret (captureTs res a.timestamp) := by
      rw [hstep0]; simp [stepAsstTools, hfind]
    have hwalk : walkRecs now pd (some (.assistant a) :: rest) true true res =
        captureTs res a.timestamp := by
      simp [walkRecs, hstep]
    refine ⟨hwalk, ?_, ?_⟩
    · rw [hwalk, captureTs_isWaiting]; exact hw
    · rw [hwalk, captureTs_isToolUseWaiting]; exact hi
  · intro hx
    subst hx
    have hstep : stepRec now pd (.assistant a) true false res =
        .ret { captureTs res a.timestamp with isWaiting := true } := by
      rw [hstep0]; simp [stepAsstTools, hfind]
    have hwalk : walkRecs now pd (some (.assistant a) :: rest) true false res =
        { captureTs res a.timestamp with isWaiting := true } := by
      simp [walkRecs, hstep]
    rw [hwalk]
    exact ⟨rfl, by simp [captureTs_isToolUseWaiting, hi]⟩

/-- C6 witness: the answered-tool-call theorem instantiated with
textResponseSeen true and false on a concrete assistant record. -/
theorem c6_witness :
    ((walkRecs 0 (fun _ => none)
        [some (.assistant { message := some { content := some (.blocks [{ type := "tool_use", name := some "Read" }]) } })]
        true true { isWaiting := false, isToolUseWaiting := false }).isWaiting = false) ∧
    ((walkRecs 0 (fun _ => none)
        [some (.assistant { message := some { content := some (.blocks [{ type := "tool_use", name := some "Read" }]) } })]
        true false { isWaiting := false, isToolUseWaiting := false }).isWaiting = true) :=
  ⟨((c6_answered_tool_use_depends_on_textResponseSeen 0 (fun _ => none)
      { message := some { content := some (.blocks [{ type := "tool_use", name := some "Read" }]) } }
      [] true { isWaiting := false, isToolUseWaiting := false }
      { type := "tool_use", name := some "Read" }
      rfl (by decide) rfl (Or.inl rfl) rfl rfl rfl).1 rfl).2.1,
   ((c6_answered_tool_use_depends_on_textResponseSeen 0 (fun _ => none)
      { message := some { content := some (.blocks [{ type := "tool_use", name := some "Read" }]) } }
      [] false { isWaiting := false, isToolUseWaiting := false }
      { type := "tool_use", name := some "Read" }
      rfl (by decide) rfl (Or.inl rfl) rfl rfl rfl).2 rfl).1⟩

/-- C10 (counterexample): a permission-tool record whose timestamp field is
present but equal to the empty string — which no date parser accepts — is
given infinite age, not NaN: the empty string is falsy in JavaScript, so
`ts ? … : Infinity` takes the Infinity path and the classifier returns
isToolUseWaiting = true, not the isWaiting = true the claim states for
present-but-unparseable timestamps. -/
theorem c10_counterexample_empty_string_timestamp :
    (readTailMetadata 0 (fun _ => none)
        (some [some (.assistant { timestamp := some "", message := some { content := some (.blocks [{ type := "tool_use", name := some "Bash" }]) } })])).isToolUseWaiting = true ∧
    (readTailMetadata 0 (fun _ => none)
        (some [some (.assistant { timestamp := some "", message := some { content := some (.blocks [{ type := "tool_use", name := some "Bash" }]) } })])).isWaiting = false := by
  decide

/-- C10 (amended): for every assistant record reaching the unanswered
permission-tool branch, a timestamp that is present, nonempty, and not
parseable as a date gives age NaN, the strict comparison age > 3000 is
false, and the classifier returns isWaiting = true and isToolUseWaiting =
false; a missing timestamp — or an empty-string timestamp, which is falsy
in JavaScript and takes the same path — gives infinite age and
isToolUseWaiting = true. -/
theorem c10_amended_nan_age_vs_infinite_age
    (now : Int) (pd : String → Option Int) (a : AsstRec)
    (rest : List (Option Rec)) (txs : Bool) (res : TailMetadata)
    (b : ContentBlock) (nm : String) (s : String)
    (hsc : a.isSidechain = false)
    (hsyn : (a.message.bind (·.model)) ≠ some "<synthetic>")
    (hstop : ((a.message.bind (·.stop_reason)) == some "end_turn"
        || (a.message.bind (·.stop_reason)) == some "stop_sequence"
        || (a.message.bind (·.stop_reason)) == some "refusal") = false)
    (htok : a.message.bind (·.output_tokens) = none ∨
      ∃ m, a.message.bind (·.output_tokens) = some m ∧ 2 ≤ m ∧
        ¬(10 < textLength (a.message.bind (·.content)) ∧
          20 * m < (textLength (a.message.bind (·.content)) : Int)))
    (hfind : findToolUse (a.message.bind (·.content)) = some b)
    (hname : b.name = some nm)
    (hperm : PERMISSION_TOOLS.contains nm = true) :
    (a.timestamp = some s → s ≠ "" → pd s = none →
       (walkRecs now pd (some (.assistant a) :: rest) false txs res).isWaiting = true ∧
       (walkRecs now pd (some (.assistant a) :: rest) false txs res).isToolUseWaiting = false) ∧
    (a.timestamp = none ∨ a.timestamp = some "" →
       (walkRecs now pd (some (.assistant a) :: rest) false txs res).isToolUseWaiting = true ∧
       (walkRecs now pd (some (.assistant a) :: rest) false txs res).isWaiting = false) := by
  have hwalk := walk_unanswered_permission now pd a rest txs res b nm
    hsc hsyn hstop htok hfind hname hperm
  constructor
  · intro hts hne hpd
    rw [hwalk, hts]
    simp [computeAge, hne, hpd, ageGtGrace]
  · intro hts
    rcases hts with hts | hts <;> rw [hwalk, hts] <;> simp [computeAge, ageGtGrace]

/-- C10 witness: the amended theorem instantiated on a present-but-unparseable
timestamp (NaN age) and on a missing timestamp (infinite age). -/
theorem c10_witness :
    ((walkRecs 0 (fun _ => none)
        [some (.assistant { timestamp := some "bogus", message := some { content := some (.blocks [{ type := "tool_use", name := some "Bash" }]) } })]
        false false { isWaiting := false, isToolUseWaiting := false }).isWaiting = true) ∧
    ((walkRecs 0 (fun _ => none)
        [some (.assistant { message := some { content := some (.blocks [{ type := "tool_use", name := some "Bash" }]) } })]
        false false { isWaiting := false, isToolUseWaiting := false }).isToolUseWaiting = true) :=
  ⟨((c10_amended_nan_age_vs_infinite_age 0 (fun _ => none)
      { timestamp := some "bogus", message := some { content := some (.blocks [{ type := "tool_use", name := some "Bash" }]) } }
      [] false { isWaiting := false, isToolUseWaiting := false }
      { type := "tool_use", name := some "Bash" } "Bash" "bogus"
      rfl (by decide) rfl (Or.inl rfl) rfl rfl rfl).1 rfl (by decide) rfl).1,
   ((c10_amended_nan_age_vs_infinite_age 0 (fun _ => none)
      { message := some { content := some (.blocks [{ type := "tool_use", name := some "Bash" }]) } }
      [] false { isWaiting := false, isToolUseWaiting := false }
      { type := "tool_use", name := some "Bash" } "Bash" "x"
      rfl (by decide) rfl (Or.inl rfl) rfl rfl rfl).2 (Or.inl rfl)).1⟩

end ClaudeConv

namespace ClaudeConv

/-- C4: for every non-sidechain user record reached by the walk: if its
content is a block sequence whose first block's text starts with the literal
prefix "[Request interrupted by user", the walk terminates with both flags
false; but if its content is a plain string starting with that same
interrupt string (hence not with "<"), it is never treated as an
interruption — a non-meta plain-string user message with that prefix is
classified as a genuine human turn with isWaiting = true. -/
theorem c4_interrupt_prefix_only_on_block_sequences :
    (∀ (now : Int) (pd : String → Option Int) (u : UserRec)
       (rest : List (Option Rec)) (trs txs : Bool) (res : TailMetadata)
       (bs : List ContentBlock) (b : ContentBlock) (t : String),
       u.isSidechain = false →
       u.message.bind (·.content) = some (.blocks bs) →
       bs.head? = some b →
       b.text = some t →
       jsStartsWith t "[Request interrupted by user" = true →
       res.isWaiting = false → res.isToolUseWaiting = false →
       walkRecs now pd (some (.user u) :: rest) trs txs res =
           captureTs res u.timestamp ∧
       (walkRecs now pd (some (.user u) :: rest) trs txs res).isWaiting = false ∧
       (walkRecs now pd (some (.user u) :: rest) trs txs res).isToolUseWaiting = false) ∧
    (∀ (now : Int) (pd : String → Option Int) (u : UserRec)
       (rest : List (Option Rec)) (trs txs : Bool) (res : TailMetadata) (s : String),
       u.isSidechain = false →
       u.isMeta = false →
       u.message.bind (·.content) = some (.str s) →
       jsStartsWith s "[Request interrupted by user" = true →
       res.isToolUseWaiting = false →
       (walkRecs now pd (some (.user u) :: rest) trs txs res).isWaiting = true ∧
       (walkRecs now pd (some (.user u) :: rest) trs txs res).isToolUseWaiting = false) := by
  constructor
  · intro now pd u rest trs txs res bs b t hsc hcontent hhead htext hjs hw hi
    have hstep : stepRec now pd (.user u) trs txs res =
        .ret (captureTs res u.timestamp) := by
      simp [stepRec, hsc, stepUser, hcontent, hhead, htext, hjs]
    have hwalk : walkRecs now pd (some (.user u) :: rest) trs txs res =
        captureTs res u.timestamp := by
      simp [walkRecs, hstep]
    refine ⟨hwalk, ?_, ?_⟩
    · rw [hwalk, captureTs_isWaiting]; exact hw
    · rw [hwalk, captureTs_isToolUseWaiting]; exact hi
  · intro now pd u rest trs txs res s hsc hmeta hcontent hjs hi
    have hlt : jsStartsWith s "<" = false := by
      simp only [jsStartsWith] at hjs
      obtain ⟨tl2, htl⟩ := List.isPrefixOf_iff_prefix.mp hjs
      have hchar : s.toList = '[' :: ("Request interrupted by user".toList ++ tl2) := by
        rw [← htl]; rfl
      simp only [jsStartsWith, hchar]
      rfl
    have hstep : stepRec now pd (.user u) trs txs res =
        .ret { captureTs res u.timestamp with isWaiting := true } := by
      simp [stepRec, hsc, stepUser, hcontent, hmeta, hlt]
    have hwalk : walkRecs now pd (some (.user u) :: rest) trs txs res =
        { captureTs res u.timestamp with isWaiting := true } := by
      simp [walkRecs, hstep]
    rw [hwalk]
    exact ⟨rfl, by simp [captureTs_isToolUseWaiting, hi]⟩

/-- C4 witness: the interrupt-prefix theorem instantiated on a block-sequence
interrupt record (not waiting) and on a plain-string record carrying the
same text (a genuine human turn). -/
theorem c4_witness :
    ((walkRecs 0 (fun _ => none)
        [some (.user { message := some { content := some (.blocks [{ type := "text", text := some "[Request interrupted by user]" }]) } })]
        false false { isWaiting := false, isToolUseWaiting := false }).isWaiting = false) ∧
    ((walkRecs 0 (fun _ => none)
        [some (.user { message := some { content := some (.str "[Request interrupted by user]") } })]
        false false { isWaiting := false, isToolUseWaiting := false }).isWaiting = true) :=
  ⟨(c4_interrupt_prefix_only_on_block_sequences.1 0 (fun _ => none)
      { message := some { content := some (.blocks [{ type := "text", text := some "[Request interrupted by user]" }]) } }
      [] false false { isWaiting := false, isToolUseWaiting := false }
      [{ type := "text", text := some "[Request interrupted by user]" }]
      { type := "text", text := some "[Request interrupted by user]" }
      "[Request interrupted by user]"
      rfl rfl rfl rfl (by decide) rfl rfl).2.1,
   (c4_interrupt_prefix_only_on_block_sequences.2 0 (fun _ => none)
      { message := some { content := some (.str "[Request interrupted by user]") } }
      [] false false { isWaiting := false, isToolUseWaiting := false }
      "[Request interrupted by user]"
      rfl rfl rfl (by decide) rfl).1⟩

end ClaudeConv
